import Mathlib

/-!
# Workflow-dependency extractor: shallow embedding

Shallow embedding of `src/event-processors/workflow-analyzer/analyzer.py`
(class `WorkflowAnalyzer`) together with the record type
`WorkflowDependency` from `src/event-processors/shared/models.py`.

The analyzer consumes the value produced by the external YAML loader
(`yaml.safe_load`).  We model decoded YAML values by the inductive type
`Yaml` below; mapping keys are strings (workflow and job mappings have
string keys, and the loader returns an insertion-ordered dict with unique
keys, which we model as an association list looked up by first match).
Scalar values other than strings (null, booleans, integers, floats, ...)
all behave identically in the analyzer — they are not mappings, sequences
or strings — so `null`, `bool` and `int` stand in for all of them.

The entry point `analyze_workflow` takes the *outcome* of the
`yaml.safe_load` library call: `.error` when the text fails to decode
(`yaml.YAMLError`, re-raised as `ValueError("Invalid YAML: ...")`),
`.ok v` when it decodes to the value `v`.

Python-semantics notes reflected in the embedding:
* `if x:` tests truthiness (`Yaml.truthy`).
* `s.split(c)` on a one-character separator is `pySplit` below.
* `len(x)` is defined for strings, lists and dicts and raises `TypeError`
  otherwise (`pyLen`); iterating a string yields its one-character
  substrings and iterating a dict yields its keys (`pyIterElems`).
* `d.get(k)` returns `None` when the key is absent, and `d.get(k, dflt)`
  returns `dflt` only when the key is absent (`pyGet` / `pyGetD`).
* calling `.items()` on a non-dict raises `AttributeError`.
-/

namespace WorkflowAnalyzer

/-- A decoded YAML document value (output universe of the YAML loader). -/
inductive Yaml : Type where
  | null : Yaml
  | bool (b : Bool) : Yaml
  | int (n : Int) : Yaml
  | str (s : String) : Yaml
  | seq (xs : List Yaml) : Yaml
  | map (kvs : List (String × Yaml)) : Yaml

/-- Python truthiness of a decoded value (`if x:`). -/
def Yaml.truthy : Yaml → Bool
  | .null => false
  | .bool b => b
  | .int n => n != 0
  | .str s => s != ""
  | .seq xs => !xs.isEmpty
  | .map kvs => !kvs.isEmpty

/-- Python `d.get(k)` (without default): `some v` when the key is present
with value `v`, `none` when absent. -/
def pyGet (kvs : List (String × Yaml)) (k : String) : Option Yaml :=
  (kvs.find? (fun kv => kv.1 == k)).map (fun kv => kv.2)

/-- Python `d.get(k, dflt)`: the stored value when the key is present
(even when that value is `None`), else `dflt`.  A bare `d.get(k)` is
`pyGetD kvs k .null` since Python's default is `None`. -/
def pyGetD (kvs : List (String × Yaml)) (k : String) (d : Yaml) : Yaml :=
  (pyGet kvs k).getD d

/-- Python `len(x)`: defined for strings (number of characters), lists and
dicts; `none` models the `TypeError` raised for other values. -/
def pyLen : Yaml → Option Nat
  | .str s => some s.data.length
  | .seq xs => some xs.length
  | .map kvs => some kvs.length
  | .null => none
  | .bool _ => none
  | .int _ => none

/-- Python iteration `for x in v`: elements of a list, one-character
strings of a string, keys of a dict.  Only reached in the analyzer after
`pyLen` succeeded, so the `[]` for non-iterables is never hit there. -/
def pyIterElems : Yaml → List Yaml
  | .str s => s.data.map (fun c => Yaml.str (String.mk [c]))
  | .seq xs => xs
  | .map kvs => kvs.map (fun kv => Yaml.str kv.1)
  | .null => []
  | .bool _ => []
  | .int _ => []

/-- Python `s.split(sep)` for a one-character separator: always a
non-empty list of (possibly empty) chunks; `"".split(c) = [""]`. -/
def pySplit (sep : Char) : List Char → List (List Char)
  | [] => [[]]
  | c :: rest =>
    match pySplit sep rest with
    | [] => [[]]
    | g :: gs => if c = sep then [] :: g :: gs else (c :: g) :: gs

/-- `WorkflowDependency.type` literals from `shared/models.py`. -/
inductive DepType : Type where
  | action : DepType
  | runner : DepType
  | container : DepType
deriving DecidableEq

/-- `WorkflowDependency.pinning_strategy` literals from `shared/models.py`. -/
inductive Pinning : Type where
  | sha : Pinning
  | tag : Pinning
  | branch : Pinning
  | unpinned : Pinning
deriving DecidableEq

/-- `WorkflowDependency` dataclass from `shared/models.py`. -/
structure WorkflowDependency where
  type : DepType
  name : String
  version : Option String
  pinning_strategy : Pinning
  raw_reference : String
deriving DecidableEq

/-- The errors `analyze_workflow` can terminate with.
`malformedDocument` is `ValueError("Invalid YAML: ...")`,
`invalidShape` is `ValueError("Workflow must be a YAML dictionary")`;
`attributeError` and `typeError` are the uncaught Python runtime errors
raised by `jobs.items()` on a non-dict and by `len(steps)` on an
unsized value respectively. -/
inductive AnalyzeError : Type where
  | malformedDocument : AnalyzeError
  | invalidShape : AnalyzeError
  | attributeError : AnalyzeError
  | typeError : AnalyzeError
deriving DecidableEq

/-- The dictionary returned by `analyze_workflow` (its four keys). -/
structure AnalysisResult where
  workflow_name : Yaml
  jobs : List String
  total_steps : Nat
  dependencies : List WorkflowDependency

/-- `[a-f0-9]` — one character of `SHA_PATTERN`. -/
def isLowerHexDigit (c : Char) : Bool :=
  (c ≥ 'a' && c ≤ 'f') || (c ≥ '0' && c ≤ '9')

/-- `SHA_PATTERN.match(s)` for `SHA_PATTERN = re.compile(r'^[a-f0-9]{40}$')`.
In Python, `$` (without `re.MULTILINE`) matches at the end of the string
*or just before a newline at the end of the string*, so the pattern also
accepts forty lowercase-hex characters followed by one final `'\n'`. -/
def shaPatternMatch (s : String) : Bool :=
  (s.data.length == 40 && s.data.all isLowerHexDigit)
    || (s.data.length == 41 && (s.data.take 40).all isLowerHexDigit
          && s.data.getLastD ' ' == '\n')

/-- `[0-9]` — one character of `\d` (Python `\d` also accepts non-ASCII
decimal digits, which never occur in the references exercised here). -/
def isAsciiDigit (c : Char) : Bool :=
  c ≥ '0' && c ≤ '9'

/-- Consume `\d+` at the front: `some rest` leaves the input after the
maximal non-empty digit run, `none` when no digit starts the input. -/
def consumeDigits1 : List Char → Option (List Char)
  | [] => none
  | c :: rest => if isAsciiDigit c then some (rest.dropWhile isAsciiDigit) else none

/-- `\d+\.\d+\.\d+` matched as a prefix of `cs`. -/
def semverCore (cs : List Char) : Bool :=
  match consumeDigits1 cs with
  | none => false
  | some r1 =>
    match r1 with
    | '.' :: r2 =>
      match consumeDigits1 r2 with
      | none => false
      | some r3 =>
        match r3 with
        | '.' :: r4 => (consumeDigits1 r4).isSome
        | _ => false
    | _ => false

/-- `SEMVER_PATTERN.match(s)` for `re.compile(r'^v?\d+\.\d+\.\d+')` — a
prefix match, trailing characters permitted.  When the first character is
`'v'` the zero-width alternative of `v?` can never succeed (`\d` rejects
`'v'`), so the greedy consumption of `'v'` is the only branch. -/
def semverPatternMatch (s : String) : Bool :=
  match s.data with
  | 'v' :: rest => semverCore rest
  | cs => semverCore cs

/-- `WorkflowAnalyzer._determine_pinning_strategy`. -/
def determine_pinning_strategy (version_ref : String) : Pinning :=
  if shaPatternMatch version_ref then .sha
  else if semverPatternMatch version_ref then .tag
  else if (["main", "master", "develop", "dev"] : List String).contains version_ref
    then .branch
  else .tag

/-- The body of `_extract_action_dependency` past the initial
`if not uses or not isinstance(uses, str)` guard, for the (non-empty)
string `uses`: the `docker://` branch (with `container_image = uses[9:]`
inlined), the local-action branch, and the split on `'@'` (with
`parts = uses.split('@')` inlined). -/
def extract_action_from_str (u : String) : Option WorkflowDependency :=
  if "docker://".data.isPrefixOf u.data then
    some { type := .container,
           name := String.mk (if (u.data.drop 9).contains ':'
             then (pySplit ':' (u.data.drop 9)).headD [] else u.data.drop 9),
           version := if (u.data.drop 9).contains ':'
             then some (String.mk ((pySplit ':' (u.data.drop 9)).getD 1 [])) else none,
           pinning_strategy := if (u.data.drop 9).contains ':' then .tag else .unpinned,
           raw_reference := u }
  else if "./".data.isPrefixOf u.data || "../".data.isPrefixOf u.data then
    none
  else if (pySplit '@' u.data).length != 2 then
    some { type := .action, name := u, version := none,
           pinning_strategy := .unpinned, raw_reference := u }
  else
    some { type := .action,
           name := String.mk ((pySplit '@' u.data).headD []),
           version := some (String.mk ((pySplit '@' u.data).getD 1 [])),
           pinning_strategy := determine_pinning_strategy
             (String.mk ((pySplit '@' u.data).getD 1 [])),
           raw_reference := u }

/-- `WorkflowAnalyzer._extract_action_dependency`.  The source checks
`if not uses or not isinstance(uses, str)` first (a falsy or non-string
`uses` yields `None`); the remaining string logic is
`extract_action_from_str`. -/
def extract_action_dependency (uses : Yaml) : Option WorkflowDependency :=
  if !uses.truthy then none
  else
    match uses with
    | .str u => extract_action_from_str u
    | _ => none

/-- `WorkflowAnalyzer._extract_runner_dependencies`. -/
def extract_runner_dependencies (runs_on : Yaml) : List WorkflowDependency :=
  let runners : List String :=
    match runs_on with
    | .str s => [s]
    | .seq xs => xs.filterMap (fun y => match y with | .str s => some s | _ => none)
    | _ => []
  runners.map (fun r =>
    { type := .runner, name := r, version := none,
      pinning_strategy := .unpinned, raw_reference := r })

/-- The dependency record built by the block that appears verbatim twice
in `_extract_container_dependencies` (`image_parts = s.split(':')`,
fields from `image_parts[0]`, `image_parts[1]` and `len(image_parts)`)
with `s` both the reference and the `raw_reference`; the local
`image_parts = s.split(':')` is inlined. -/
def code_container_dep (s : String) : WorkflowDependency :=
  { type := .container,
    name := String.mk ((pySplit ':' s.data).headD []),
    version := if (pySplit ':' s.data).length > 1
      then some (String.mk ((pySplit ':' s.data).getD 1 [])) else none,
    pinning_strategy := if (pySplit ':' s.data).length > 1 then .tag else .unpinned,
    raw_reference := s }

/-- `WorkflowAnalyzer._extract_container_dependencies`.  The dict branch
requires `image` to be present, truthy and a string (`if image and
isinstance(image, str)`). -/
def extract_container_dependencies (container : Yaml) : List WorkflowDependency :=
  match container with
  | .str s => [code_container_dep s]
  | .map kvs =>
    match pyGet kvs "image" with
    | some (.str s) => if s != "" then [code_container_dep s] else []
    | _ => []
  | _ => []

/-- The `if runs_on:` guard of `analyze_workflow` around the call to
`_extract_runner_dependencies`: the per-job runner records actually
appended to the running dependency list. -/
def guarded_runner_deps (runs_on : Yaml) : List WorkflowDependency :=
  if runs_on.truthy then extract_runner_dependencies runs_on else []

/-- The `if container:` guard of `analyze_workflow` around the call to
`_extract_container_dependencies`. -/
def guarded_container_deps (container : Yaml) : List WorkflowDependency :=
  if container.truthy then extract_container_dependencies container else []

/-- The inner step loop of `analyze_workflow`: non-dict steps are
skipped; for a dict step, `uses = step.get('uses')` is examined and the
extracted dependency (when any) is appended to the running list. -/
def processSteps : List Yaml → List WorkflowDependency → List WorkflowDependency
  | [], deps => deps
  | step :: rest, deps =>
    match step with
    | .map skvs =>
      let uses := pyGetD skvs "uses" .null
      if uses.truthy then
        match extract_action_dependency uses with
        | some d => processSteps rest (deps ++ [d])
        | none => processSteps rest deps
      else processSteps rest deps
    | _ => processSteps rest deps

/-- The `for job_name, job_config in jobs.items()` loop of
`analyze_workflow`, threading the mutable locals `dependencies`,
`jobs_list` and `total_steps`.  `total_steps += len(steps)` runs before
the step loop, so an unsized `steps` value raises `TypeError` before any
of that job's steps are examined. -/
def processJobs : List (String × Yaml) → List WorkflowDependency → List String → Nat →
    Except AnalyzeError (List WorkflowDependency × List String × Nat)
  | [], deps, jobs_list, total_steps => .ok (deps, jobs_list, total_steps)
  | (job_name, job_config) :: rest, deps, jobs_list, total_steps =>
    match job_config with
    | .map jc =>
      let jobs_list := jobs_list ++ [job_name]
      let deps := deps ++ guarded_runner_deps (pyGetD jc "runs-on" .null)
      let deps := deps ++ guarded_container_deps (pyGetD jc "container" .null)
      let steps := pyGetD jc "steps" (.seq [])
      match pyLen steps with
      | none => .error .typeError
      | some n => processJobs rest (processSteps (pyIterElems steps) deps) jobs_list (total_steps + n)
    | _ => processJobs rest deps jobs_list total_steps

/-- The final `return {...}` of `analyze_workflow`, applied to the
outcome of the job loop (or propagating its error). -/
def finish_analysis (wkvs : List (String × Yaml))
    (out : Except AnalyzeError (List WorkflowDependency × List String × Nat)) :
    Except AnalyzeError AnalysisResult :=
  match out with
  | .ok (deps, jobs_list, total_steps) =>
    .ok { workflow_name := pyGetD wkvs "name" .null,
          jobs := jobs_list, total_steps := total_steps, dependencies := deps }
  | .error e => .error e

/-- The part of `analyze_workflow` from `jobs.items()` on, as a function
of the `jobs` value: the loop runs when `jobs` is a dict and
`AttributeError` is raised otherwise. -/
def analyze_jobs_value (wkvs : List (String × Yaml)) (jobsval : Yaml) :
    Except AnalyzeError AnalysisResult :=
  match jobsval with
  | .map jkvs => finish_analysis wkvs (processJobs jkvs [] [] 0)
  | _ => .error .attributeError

/-- `WorkflowAnalyzer.analyze_workflow`, taking the outcome of the
`yaml.safe_load` call on the input text.  `jobs = workflow.get('jobs', {})`
defaults only an *absent* key to the empty dict; a present non-dict value
reaches `jobs.items()` and raises `AttributeError`. -/
def analyze_workflow (parsed : Except String Yaml) : Except AnalyzeError AnalysisResult :=
  match parsed with
  | .error _ => .error .malformedDocument
  | .ok workflow =>
    match workflow with
    | .map wkvs => analyze_jobs_value wkvs (pyGetD wkvs "jobs" (.map []))
    | _ => .error .invalidShape

/-! ## State-threaded form of the analyzer

The method body of `analyze_workflow` contains no assignment to `self`,
to class attributes or to globals; its only writes are to the call's own
locals.  The state-threaded embedding below makes this explicit: an
ambient state of an arbitrary type `σ` (instance attributes, process-wide
state) is passed through every statement and loop iteration of the same
control flow.  Statelessness and determinism are then provable facts
about these definitions rather than modelling assumptions. -/

/-- Step loop of `analyze_workflow`, threading the ambient state. -/
def processStepsSt (σ : Type) : List Yaml → List WorkflowDependency → σ →
    List WorkflowDependency × σ
  | [], deps, st => (deps, st)
  | step :: rest, deps, st =>
    match step with
    | .map skvs =>
      let uses := pyGetD skvs "uses" .null
      if uses.truthy then
        match extract_action_dependency uses with
        | some d => processStepsSt σ rest (deps ++ [d]) st
        | none => processStepsSt σ rest deps st
      else processStepsSt σ rest deps st
    | _ => processStepsSt σ rest deps st

/-- Job loop of `analyze_workflow`, threading the ambient state. -/
def processJobsSt (σ : Type) : List (String × Yaml) → List WorkflowDependency → List String →
    Nat → σ → Except AnalyzeError (List WorkflowDependency × List String × Nat) × σ
  | [], deps, jobs_list, total_steps, st => (.ok (deps, jobs_list, total_steps), st)
  | (job_name, job_config) :: rest, deps, jobs_list, total_steps, st =>
    match job_config with
    | .map jc =>
      let jobs_list := jobs_list ++ [job_name]
      let deps := deps ++ guarded_runner_deps (pyGetD jc "runs-on" .null)
      let deps := deps ++ guarded_container_deps (pyGetD jc "container" .null)
      let steps := pyGetD jc "steps" (.seq [])
      match pyLen steps with
      | none => (.error .typeError, st)
      | some n =>
        match processStepsSt σ (pyIterElems steps) deps st with
        | (deps, st) => processJobsSt σ rest deps jobs_list (total_steps + n) st
    | _ => processJobsSt σ rest deps jobs_list total_steps st

/-- The `jobs.items()` part of `analyze_workflow`, threading the ambient
state. -/
def analyze_jobs_value_st (σ : Type) (wkvs : List (String × Yaml)) (jobsval : Yaml) (st : σ) :
    Except AnalyzeError AnalysisResult × σ :=
  match jobsval with
  | .map jkvs =>
    match processJobsSt σ jkvs [] [] 0 st with
    | (out, st) => (finish_analysis wkvs out, st)
  | _ => (.error .attributeError, st)

/-- `analyze_workflow`, threading the ambient state. -/
def analyze_workflow_st (σ : Type) (st : σ) (parsed : Except String Yaml) :
    Except AnalyzeError AnalysisResult × σ :=
  match parsed with
  | .error _ => (.error .malformedDocument, st)
  | .ok workflow =>
    match workflow with
    | .map wkvs => analyze_jobs_value_st σ wkvs (pyGetD wkvs "jobs" (.map [])) st
    | _ => (.error .invalidShape, st)

/-! ## Result accessors used by theorem statements -/

/-- The error of a failed analysis, `none` on success. -/
def exceptFailure {α : Type} : Except AnalyzeError α → Option AnalyzeError
  | .error e => some e
  | .ok _ => none

/-- The `total_steps` entry of a successful analysis. -/
def okTotalSteps : Except AnalyzeError AnalysisResult → Option Nat
  | .ok r => some r.total_steps
  | .error _ => none

/-- The `jobs` entry of a successful analysis. -/
def okJobs : Except AnalyzeError AnalysisResult → Option (List String)
  | .ok r => some r.jobs
  | .error _ => none

/-- The `dependencies` entry of a successful analysis. -/
def okDependencies : Except AnalyzeError AnalysisResult → Option (List WorkflowDependency)
  | .ok r => some r.dependencies
  | .error _ => none

/-! ## Specification-side definitions

The definitions in this section restate properties in the words of the
specification (or of its minimally amended form) so that the theorems
below can compare the analyzer against them.  They are deliberately
written in a different style from the embedded code. -/

/-- Whether every well-formed (dict-valued) job has a sized `steps`
value, i.e. whether the job loop runs to completion without `TypeError`. -/
def jobs_steps_all_sized (jkvs : List (String × Yaml)) : Bool :=
  jkvs.all (fun kv => match kv.2 with
    | .map jc => (pyLen (pyGetD jc "steps" (.seq []))).isSome
    | _ => true)

/-- The failure the amended C1 predicts once the root is a dict, as a
function of the `jobs` value. -/
def expected_failure_jobs (jobsval : Yaml) : Option AnalyzeError :=
  match jobsval with
  | .map jkvs => if jobs_steps_all_sized jkvs then none else some .typeError
  | _ => some .attributeError

/-- The failure the amended C1 predicts for a given parse outcome:
`MalformedDocument` for undecodable text, `InvalidShape` for a non-dict
root, `AttributeError` for a present non-dict `jobs` value, `TypeError`
when some dict-valued job carries an unsized `steps` value, and success
(`none`) otherwise. -/
def expected_failure (parsed : Except String Yaml) : Option AnalyzeError :=
  match parsed with
  | .error _ => some .malformedDocument
  | .ok workflow =>
    match workflow with
    | .map wkvs => expected_failure_jobs (pyGetD wkvs "jobs" (.map []))
    | _ => some .invalidShape

/-- Step total in the words of claim C2: the length of the `steps` value
when that value is a sequence and 0 otherwise, summed over job entries
whose value is a mapping. -/
def total_steps_seq_only (jkvs : List (String × Yaml)) : Nat :=
  (jkvs.map (fun kv =>
    match kv.2 with
    | .map jc =>
      match pyGetD jc "steps" (.seq []) with
      | .seq xs => xs.length
      | _ => 0
    | _ => 0)).sum

/-- Step total in the words of the amended C2: the Python length of the
`steps` value (sequence length, string character count, mapping size),
summed over job entries whose value is a mapping; absent `steps`
contributes 0. -/
def total_steps_py (jkvs : List (String × Yaml)) : Nat :=
  (jkvs.map (fun kv =>
    match kv.2 with
    | .map jc => (pyLen (pyGetD jc "steps" (.seq []))).getD 0
    | _ => 0)).sum

/-- A degenerate reference string, for the amended C3: empty, beginning
with the split separator (`':'` for container references, `'@'` for
action references), or a `docker://` reference whose remainder is empty
or begins with `':'`. -/
def degenerate_reference (r : String) : Bool :=
  r == ""
    || r.data.head? == some ':'
    || r.data.head? == some '@'
    || ("docker://".data.isPrefixOf r.data
          && ((r.data.drop 9).head? == some ':' || (r.data.drop 9).isEmpty))

/-- The name claim C4 predicts: the substring before the first colon
(the whole string when it has no colon). -/
def first_colon_name (s : String) : String :=
  String.mk (s.data.takeWhile (fun c => c != ':'))

/-- The version the amended C4 predicts: for a reference containing a
colon, the substring after the first colon up to (and not including) the
second colon, or up to the end when there is no second colon; `none`
for a colon-free reference. -/
def between_first_and_second_colon (s : String) : Option String :=
  if s.data.contains ':' then
    some (String.mk (((s.data.dropWhile (fun c => c != ':')).tail).takeWhile (fun c => c != ':')))
  else none

/-- The container record the amended C4 predicts for reference string
`s` recorded with raw reference `raw`. -/
def container_dep_spec (s raw : String) : WorkflowDependency :=
  { type := .container,
    name := first_colon_name s,
    version := between_first_and_second_colon s,
    pinning_strategy := if s.data.contains ':' then .tag else .unpinned,
    raw_reference := raw }

/-- The sixteen lowercase hexadecimal characters, as claim C5 speaks of
them. -/
def lowerHexChars : List Char :=
  ['a', 'b', 'c', 'd', 'e', 'f']
    ++ ['0', '1', '2', '3', '4'] ++ ['5', '6', '7', '8', '9']

/-- Claim C5's notion of a SHA: exactly forty lowercase hexadecimal
characters and nothing else. -/
def sha_claim_strict (s : String) : Prop :=
  s.data.length = 40 ∧ ∀ c ∈ s.data, c ∈ lowerHexChars

/-- The Runner record claims C6 and C8 speak of: name and raw reference
equal to the label, no version, unpinned. -/
def runner_record (label : String) : WorkflowDependency :=
  { type := .runner, name := label, version := none,
    pinning_strategy := .unpinned, raw_reference := label }

/-- Runner records per the amended C6, element by element: one record
per string element of a sequence, in listed order, non-string elements
dropped. -/
def runner_records_of_list : List Yaml → List WorkflowDependency
  | [] => []
  | .str s :: rest => runner_record s :: runner_records_of_list rest
  | _ :: rest => runner_records_of_list rest

/-- What the amended C6 predicts a `runs-on` value contributes: one
record for a non-empty string, nothing for the (falsy) empty string, one
record per string element of a sequence in listed order, and nothing for
any other shape. -/
def runner_deps_spec (runs_on : Yaml) : List WorkflowDependency :=
  match runs_on with
  | .str s => if s = "" then [] else [runner_record s]
  | .seq xs => runner_records_of_list xs
  | _ => []

/-- The fully unpinned Action record claim C7 speaks of: the raw string
as name, no version. -/
def unpinned_action (u : String) : WorkflowDependency :=
  { type := .action, name := u, version := none,
    pinning_strategy := .unpinned, raw_reference := u }

/-- The Action record claim C7 predicts for a `uses` string, by the
number of `'@'` characters it contains: none — fully unpinned; exactly
one — name before the `'@'`, version after it, pinning from the
pinning-strategy rule; more than one — fully unpinned with the raw
string as name. -/
def action_dep_spec (u : String) : WorkflowDependency :=
  if u.data.count '@' = 0 then unpinned_action u
  else if u.data.count '@' = 1 then
    { type := .action,
      name := String.mk (u.data.takeWhile (fun c => c != '@')),
      version := some (String.mk ((u.data.dropWhile (fun c => c != '@')).tail)),
      pinning_strategy :=
        determine_pinning_strategy (String.mk ((u.data.dropWhile (fun c => c != '@')).tail)),
      raw_reference := u }
  else unpinned_action u

/-- The per-step dependency (zero or one per step) of claim C8: nothing
for a non-dict step, else the action dependency extracted from a truthy
`uses` value. -/
def step_action_dep (step : Yaml) : Option WorkflowDependency :=
  match step with
  | .map skvs =>
    let uses := pyGetD skvs "uses" .null
    if uses.truthy then extract_action_dependency uses else none
  | _ => none

/-- The per-job dependency block of claim C8: runner records, then the
container record (zero or one), then one record per dependency-bearing
step in step order. -/
def job_deps_spec (jc : List (String × Yaml)) : List WorkflowDependency :=
  guarded_runner_deps (pyGetD jc "runs-on" .null)
    ++ guarded_container_deps (pyGetD jc "container" .null)
    ++ (pyIterElems (pyGetD jc "steps" (.seq []))).filterMap step_action_dep

/-- The whole dependency list of claim C8: the per-job blocks in
document order of the jobs mapping, non-dict jobs contributing nothing. -/
def deps_spec (jkvs : List (String × Yaml)) : List WorkflowDependency :=
  (jkvs.map (fun kv =>
    match kv.2 with
    | .map jc => job_deps_spec jc
    | _ => [])).flatten

/-- The job identifiers recorded by a full traversal: keys of the
dict-valued job entries, in document order. -/
def jobs_list_spec (jkvs : List (String × Yaml)) : List String :=
  jkvs.filterMap (fun kv =>
    match kv.2 with
    | .map _ => some kv.1
    | _ => none)

/-! ## Helper lemmas -/

theorem char_eq_of_toNat_eq {c d : Char} (h : c.toNat = d.toNat) : c = d :=
  Char.ext (UInt32.toNat.inj h)

theorem char_le_iff_toNat {c d : Char} : c ≤ d ↔ c.toNat ≤ d.toNat := by
  rw [Char.le_def, UInt32.le_def]; rfl

theorem string_mk_eq_empty_iff (x : List Char) : String.mk x = "" ↔ x = [] := by
  simp [String.ext_iff]

theorem isLowerHexDigit_iff (c : Char) : isLowerHexDigit c = true ↔ c ∈ lowerHexChars := by
  constructor
  · intro h
    simp only [isLowerHexDigit, Bool.or_eq_true, Bool.and_eq_true, decide_eq_true_eq,
      ge_iff_le] at h
    have hval : (97 ≤ c.toNat ∧ c.toNat ≤ 102) ∨ (48 ≤ c.toNat ∧ c.toNat ≤ 57) := by
      rcases h with ⟨h1, h2⟩ | ⟨h1, h2⟩
      · exact Or.inl ⟨char_le_iff_toNat.mp h1, char_le_iff_toNat.mp h2⟩
      · exact Or.inr ⟨char_le_iff_toNat.mp h1, char_le_iff_toNat.mp h2⟩
    have hmem : c.toNat ∈ lowerHexChars.map Char.toNat := by
      have hlist : lowerHexChars.map Char.toNat
          = [97, 98, 99, 100, 101, 102, 48, 49, 50, 51, 52, 53, 54, 55, 56, 57] := rfl
      rw [hlist]
      simp only [List.mem_cons, List.not_mem_nil, or_false]
      omega
    rcases List.mem_map.mp hmem with ⟨d, hd, hdn⟩
    have hcd : c = d := char_eq_of_toNat_eq hdn.symm
    rw [hcd]; exact hd
  · intro h
    fin_cases h <;> decide

theorem pySplit_cons (sep c : Char) (rest : List Char) :
    pySplit sep (c :: rest) =
      match pySplit sep rest with
      | [] => [[]]
      | g :: gs => if c = sep then [] :: g :: gs else (c :: g) :: gs := rfl

theorem pySplit_ne_nil (sep : Char) (cs : List Char) : pySplit sep cs ≠ [] := by
  cases cs with
  | nil => simp [pySplit]
  | cons c rest =>
    rw [pySplit_cons]
    cases h : pySplit sep rest with
    | nil => simp
    | cons g gs =>
      by_cases hc : c = sep <;> simp [hc]

theorem pySplit_sepfree {sep : Char} : ∀ {cs : List Char}, cs.count sep = 0 →
    pySplit sep cs = [cs]
  | [], _ => rfl
  | c :: rest, h => by
    have hc : ¬ (c = sep) := by
      intro he
      subst he
      simp [List.count_cons] at h
    have hr : rest.count sep = 0 := by
      simp only [List.count_cons] at h
      omega
    rw [pySplit_cons, pySplit_sepfree hr]
    simp [hc]

theorem pySplit_append {sep : Char} :
    ∀ {a : List Char} (b : List Char), a.count sep = 0 →
      pySplit sep (a ++ sep :: b) = a :: pySplit sep b
  | [], b, _ => by
    show pySplit sep (sep :: b) = [] :: pySplit sep b
    rw [pySplit_cons]
    cases h : pySplit sep b with
    | nil => exact absurd h (pySplit_ne_nil sep b)
    | cons g gs => simp
  | c :: a, b, h => by
    have hc : ¬ (c = sep) := by
      intro he; subst he; simp [List.count_cons] at h
    have ha : a.count sep = 0 := by
      simp only [List.count_cons] at h
      omega
    have ih := pySplit_append (a := a) b ha
    show pySplit sep (c :: (a ++ sep :: b)) = (c :: a) :: pySplit sep b
    rw [pySplit_cons, ih]
    simp [hc]

theorem pySplit_length (sep : Char) : ∀ (cs : List Char),
    (pySplit sep cs).length = cs.count sep + 1
  | [] => rfl
  | c :: rest => by
    have ih := pySplit_length sep rest
    rw [pySplit_cons]
    cases h : pySplit sep rest with
    | nil => exact absurd h (pySplit_ne_nil sep rest)
    | cons g gs =>
      rw [h] at ih
      by_cases hc : c = sep <;> simp_all [List.count_cons, hc]

theorem pySplit_head (sep : Char) : ∀ (cs : List Char),
    (pySplit sep cs).headD [] = cs.takeWhile (fun x => x != sep)
  | [] => rfl
  | c :: rest => by
    have ih := pySplit_head sep rest
    rw [pySplit_cons]
    cases h : pySplit sep rest with
    | nil => exact absurd h (pySplit_ne_nil sep rest)
    | cons g gs =>
      rw [h] at ih
      by_cases hc : c = sep <;> simp_all [List.takeWhile_cons, hc]

theorem first_sep_decomp {sep : Char} : ∀ {cs : List Char}, cs.count sep ≠ 0 →
    cs = cs.takeWhile (fun x => x != sep) ++ sep :: (cs.dropWhile (fun x => x != sep)).tail
      ∧ (cs.takeWhile (fun x => x != sep)).count sep = 0
  | [], h => absurd rfl h
  | c :: rest, h => by
    by_cases hc : c = sep
    · subst hc
      simp [List.takeWhile_cons, List.dropWhile_cons]
    · have hr : rest.count sep ≠ 0 := by
        simp only [List.count_cons] at h
        simp only [beq_iff_eq] at h
        intro h0
        rw [h0] at h
        simp [hc] at h
      have ih := @first_sep_decomp sep rest hr
      constructor
      · conv_lhs => rw [ih.1]
        simp [List.takeWhile_cons, List.dropWhile_cons, hc]
      · simp [List.takeWhile_cons, hc, List.count_cons, ih.2]

theorem takeWhile_eq_self_of_count_zero {sep : Char} : ∀ {cs : List Char},
    cs.count sep = 0 → cs.takeWhile (fun x => x != sep) = cs
  | [], _ => rfl
  | c :: rest, h => by
    have hc : ¬ (c = sep) := by
      intro he; subst he; simp [List.count_cons] at h
    have hr : rest.count sep = 0 := by
      simp only [List.count_cons] at h
      omega
    simp [List.takeWhile_cons, hc, takeWhile_eq_self_of_count_zero hr]

theorem pySplit_getD_one {sep : Char} {cs : List Char} (h : cs.count sep ≠ 0) :
    (pySplit sep cs).getD 1 [] =
      ((cs.dropWhile (fun x => x != sep)).tail).takeWhile (fun x => x != sep) := by
  obtain ⟨hdecomp, hfree⟩ := first_sep_decomp h
  conv_lhs => rw [hdecomp]
  rw [pySplit_append _ hfree]
  have hne := pySplit_ne_nil sep ((cs.dropWhile (fun x => x != sep)).tail)
  cases h2 : pySplit sep ((cs.dropWhile (fun x => x != sep)).tail) with
  | nil => exact absurd h2 hne
  | cons g gs =>
    have hh := pySplit_head sep ((cs.dropWhile (fun x => x != sep)).tail)
    rw [h2] at hh
    simpa using hh

theorem contains_iff_count_ne_zero (cs : List Char) (sep : Char) :
    cs.contains sep = true ↔ cs.count sep ≠ 0 := by
  rw [show cs.contains sep = cs.elem sep from rfl, List.elem_iff]
  rw [ne_eq, List.count_eq_zero]
  simp

/-! ## Loop characterizations -/

theorem processSteps_eq : ∀ (steps : List Yaml) (deps : List WorkflowDependency),
    processSteps steps deps = deps ++ steps.filterMap step_action_dep
  | [], deps => by simp [processSteps]
  | step :: rest, deps => by
    have ih := processSteps_eq rest
    cases step with
    | map skvs =>
      by_cases ht : (pyGetD skvs "uses" .null).truthy
      · cases hx : extract_action_dependency (pyGetD skvs "uses" .null) with
        | some d => simp [processSteps, step_action_dep, ht, hx, ih]
        | none => simp [processSteps, step_action_dep, ht, hx, ih]
      · simp [processSteps, step_action_dep, ht, ih]
    | null => simp [processSteps, step_action_dep, ih]
    | bool b => simp [processSteps, step_action_dep, ih]
    | int n => simp [processSteps, step_action_dep, ih]
    | str s => simp [processSteps, step_action_dep, ih]
    | seq xs => simp [processSteps, step_action_dep, ih]

theorem processJobs_eq : ∀ (jkvs : List (String × Yaml)) (deps : List WorkflowDependency)
    (jl : List String) (ts : Nat),
    processJobs jkvs deps jl ts =
      if jobs_steps_all_sized jkvs then
        .ok (deps ++ deps_spec jkvs, jl ++ jobs_list_spec jkvs, ts + total_steps_py jkvs)
      else .error .typeError
  | [], deps, jl, ts => by
    simp [processJobs, jobs_steps_all_sized, deps_spec, jobs_list_spec, total_steps_py]
  | (k, v) :: rest, deps, jl, ts => by
    have ih := processJobs_eq rest
    cases v with
    | map jc =>
      cases h : pyLen (pyGetD jc "steps" (.seq [])) with
      | none =>
        have hc : jobs_steps_all_sized ((k, Yaml.map jc) :: rest) = false := by
          show ((pyLen (pyGetD jc "steps" (Yaml.seq []))).isSome
            && jobs_steps_all_sized rest) = false
          rw [h]
          rfl
        rw [show processJobs ((k, .map jc) :: rest) deps jl ts =
          (match pyLen (pyGetD jc "steps" (.seq [])) with
           | none => .error .typeError
           | some n => processJobs rest
               (processSteps (pyIterElems (pyGetD jc "steps" (.seq [])))
                 (deps ++ guarded_runner_deps (pyGetD jc "runs-on" .null)
                       ++ guarded_container_deps (pyGetD jc "container" .null)))
               (jl ++ [k]) (ts + n)) from rfl]
        rw [h, hc]
        rfl
      | some n =>
        rw [show processJobs ((k, .map jc) :: rest) deps jl ts =
          (match pyLen (pyGetD jc "steps" (.seq [])) with
           | none => .error .typeError
           | some n => processJobs rest
               (processSteps (pyIterElems (pyGetD jc "steps" (.seq [])))
                 (deps ++ guarded_runner_deps (pyGetD jc "runs-on" .null)
                       ++ guarded_container_deps (pyGetD jc "container" .null)))
               (jl ++ [k]) (ts + n)) from rfl]
        rw [h]
        show processJobs rest
            (processSteps (pyIterElems (pyGetD jc "steps" (.seq [])))
              (deps ++ guarded_runner_deps (pyGetD jc "runs-on" .null)
                    ++ guarded_container_deps (pyGetD jc "container" .null)))
            (jl ++ [k]) (ts + n) = _
        rw [processSteps_eq, ih]
        have hc : jobs_steps_all_sized ((k, Yaml.map jc) :: rest) = jobs_steps_all_sized rest := by
          show ((pyLen (pyGetD jc "steps" (Yaml.seq []))).isSome
            && jobs_steps_all_sized rest) = jobs_steps_all_sized rest
          rw [h]
          exact Bool.true_and _
        have hd : deps_spec ((k, Yaml.map jc) :: rest)
            = job_deps_spec jc ++ deps_spec rest := rfl
        have hj : jobs_list_spec ((k, Yaml.map jc) :: rest) = k :: jobs_list_spec rest := rfl
        have htot : total_steps_py ((k, Yaml.map jc) :: rest)
            = (pyLen (pyGetD jc "steps" (Yaml.seq []))).getD 0 + total_steps_py rest := rfl
        rw [hc, hd, hj, htot, h, Option.getD_some]
        split
        · simp [job_deps_spec, List.append_assoc, Nat.add_assoc]
        · rfl
    | null =>
      show processJobs rest deps jl ts = _
      rw [ih]
      have hc : jobs_steps_all_sized ((k, Yaml.null) :: rest) = jobs_steps_all_sized rest :=
        Bool.true_and _
      have hd : deps_spec ((k, Yaml.null) :: rest) = deps_spec rest := rfl
      have hj : jobs_list_spec ((k, Yaml.null) :: rest) = jobs_list_spec rest := rfl
      have htot : total_steps_py ((k, Yaml.null) :: rest) = total_steps_py rest := Nat.zero_add _
      rw [hc, hd, hj, htot]
    | bool b =>
      show processJobs rest deps jl ts = _
      rw [ih]
      have hc : jobs_steps_all_sized ((k, Yaml.bool b) :: rest) = jobs_steps_all_sized rest :=
        Bool.true_and _
      have hd : deps_spec ((k, Yaml.bool b) :: rest) = deps_spec rest := rfl
      have hj : jobs_list_spec ((k, Yaml.bool b) :: rest) = jobs_list_spec rest := rfl
      have htot : total_steps_py ((k, Yaml.bool b) :: rest) = total_steps_py rest := Nat.zero_add _
      rw [hc, hd, hj, htot]
    | int n =>
      show processJobs rest deps jl ts = _
      rw [ih]
      have hc : jobs_steps_all_sized ((k, Yaml.int n) :: rest) = jobs_steps_all_sized rest :=
        Bool.true_and _
      have hd : deps_spec ((k, Yaml.int n) :: rest) = deps_spec rest := rfl
      have hj : jobs_list_spec ((k, Yaml.int n) :: rest) = jobs_list_spec rest := rfl
      have htot : total_steps_py ((k, Yaml.int n) :: rest) = total_steps_py rest := Nat.zero_add _
      rw [hc, hd, hj, htot]
    | str s =>
      show processJobs rest deps jl ts = _
      rw [ih]
      have hc : jobs_steps_all_sized ((k, Yaml.str s) :: rest) = jobs_steps_all_sized rest :=
        Bool.true_and _
      have hd : deps_spec ((k, Yaml.str s) :: rest) = deps_spec rest := rfl
      have hj : jobs_list_spec ((k, Yaml.str s) :: rest) = jobs_list_spec rest := rfl
      have htot : total_steps_py ((k, Yaml.str s) :: rest) = total_steps_py rest := Nat.zero_add _
      rw [hc, hd, hj, htot]
    | seq xs =>
      show processJobs rest deps jl ts = _
      rw [ih]
      have hc : jobs_steps_all_sized ((k, Yaml.seq xs) :: rest) = jobs_steps_all_sized rest :=
        Bool.true_and _
      have hd : deps_spec ((k, Yaml.seq xs) :: rest) = deps_spec rest := rfl
      have hj : jobs_list_spec ((k, Yaml.seq xs) :: rest) = jobs_list_spec rest := rfl
      have htot : total_steps_py ((k, Yaml.seq xs) :: rest) = total_steps_py rest := Nat.zero_add _
      rw [hc, hd, hj, htot]

theorem analyze_workflow_jobs_map {wkvs jkvs : List (String × Yaml)}
    (hjobs : pyGetD wkvs "jobs" (.map []) = .map jkvs) :
    analyze_workflow (.ok (.map wkvs)) =
      if jobs_steps_all_sized jkvs then
        .ok { workflow_name := pyGetD wkvs "name" .null,
              jobs := jobs_list_spec jkvs,
              total_steps := total_steps_py jkvs,
              dependencies := deps_spec jkvs }
      else .error .typeError := by
  show analyze_jobs_value wkvs (pyGetD wkvs "jobs" (.map [])) = _
  rw [hjobs]
  show finish_analysis wkvs (processJobs jkvs [] [] 0) = _
  rw [processJobs_eq]
  by_cases hs : jobs_steps_all_sized jkvs = true
  · rw [if_pos hs, if_pos hs]
    show Except.ok
        ({ workflow_name := pyGetD wkvs "name" Yaml.null,
           jobs := [] ++ jobs_list_spec jkvs,
           total_steps := 0 + total_steps_py jkvs,
           dependencies := [] ++ deps_spec jkvs } : AnalysisResult) = _
    rw [List.nil_append, List.nil_append, Nat.zero_add]
  · rw [if_neg hs, if_neg hs]
    rfl

theorem processStepsSt_eq (σ : Type) : ∀ (steps : List Yaml) (deps : List WorkflowDependency)
    (st : σ), processStepsSt σ steps deps st = (processSteps steps deps, st)
  | [], deps, st => rfl
  | step :: rest, deps, st => by
    cases step with
    | map skvs =>
      by_cases ht : (pyGetD skvs "uses" .null).truthy
      · cases hx : extract_action_dependency (pyGetD skvs "uses" .null) with
        | some d => simp [processStepsSt, processSteps, ht, hx, processStepsSt_eq σ rest]
        | none => simp [processStepsSt, processSteps, ht, hx, processStepsSt_eq σ rest]
      · simp [processStepsSt, processSteps, ht, processStepsSt_eq σ rest]
    | null => simp [processStepsSt, processSteps, processStepsSt_eq σ rest]
    | bool b => simp [processStepsSt, processSteps, processStepsSt_eq σ rest]
    | int n => simp [processStepsSt, processSteps, processStepsSt_eq σ rest]
    | str s => simp [processStepsSt, processSteps, processStepsSt_eq σ rest]
    | seq xs => simp [processStepsSt, processSteps, processStepsSt_eq σ rest]

theorem processJobsSt_eq (σ : Type) : ∀ (jkvs : List (String × Yaml))
    (deps : List WorkflowDependency) (jl : List String) (ts : Nat) (st : σ),
    processJobsSt σ jkvs deps jl ts st = (processJobs jkvs deps jl ts, st)
  | [], deps, jl, ts, st => rfl
  | (k, v) :: rest, deps, jl, ts, st => by
    cases v with
    | map jc =>
      rw [show processJobsSt σ ((k, .map jc) :: rest) deps jl ts st =
        (match pyLen (pyGetD jc "steps" (.seq [])) with
         | none => (.error .typeError, st)
         | some n =>
           match processStepsSt σ (pyIterElems (pyGetD jc "steps" (.seq [])))
               (deps ++ guarded_runner_deps (pyGetD jc "runs-on" .null)
                     ++ guarded_container_deps (pyGetD jc "container" .null)) st with
           | (deps2, st2) => processJobsSt σ rest deps2 (jl ++ [k]) (ts + n) st2) from rfl]
      rw [show processJobs ((k, .map jc) :: rest) deps jl ts =
        (match pyLen (pyGetD jc "steps" (.seq [])) with
         | none => .error .typeError
         | some n => processJobs rest
             (processSteps (pyIterElems (pyGetD jc "steps" (.seq [])))
               (deps ++ guarded_runner_deps (pyGetD jc "runs-on" .null)
                     ++ guarded_container_deps (pyGetD jc "container" .null)))
             (jl ++ [k]) (ts + n)) from rfl]
      cases h : pyLen (pyGetD jc "steps" (.seq [])) with
      | none => rfl
      | some n =>
        rw [processStepsSt_eq σ]
        exact processJobsSt_eq σ rest _ _ _ _
    | null => exact processJobsSt_eq σ rest deps jl ts st
    | bool b => exact processJobsSt_eq σ rest deps jl ts st
    | int n => exact processJobsSt_eq σ rest deps jl ts st
    | str s => exact processJobsSt_eq σ rest deps jl ts st
    | seq xs => exact processJobsSt_eq σ rest deps jl ts st

theorem analyze_workflow_st_eq (σ : Type) (st : σ) (parsed : Except String Yaml) :
    analyze_workflow_st σ st parsed = (analyze_workflow parsed, st) := by
  cases parsed with
  | error e => rfl
  | ok w =>
    cases w with
    | map wkvs =>
      show analyze_jobs_value_st σ wkvs (pyGetD wkvs "jobs" (.map [])) st
        = (analyze_jobs_value wkvs (pyGetD wkvs "jobs" (.map [])), st)
      cases hj : pyGetD wkvs "jobs" (.map []) with
      | map jkvs =>
        show (match processJobsSt σ jkvs [] [] 0 st with
              | (out, st2) => (finish_analysis wkvs out, st2))
          = (finish_analysis wkvs (processJobs jkvs [] [] 0), st)
        rw [processJobsSt_eq σ]
      | null => rfl
      | bool b => rfl
      | int n => rfl
      | str s => rfl
      | seq xs => rfl
    | null => rfl
    | bool b => rfl
    | int n => rfl
    | str s => rfl
    | seq xs => rfl

/-! ## Claims -/

/-- C1 (amended): for every parse outcome, `analyze_workflow` either
returns a result or fails with exactly one of four failures, precisely
classified by `expected_failure`: `MalformedDocument` when the text fails
to decode, `InvalidShape` when the decoded root is not a mapping,
`AttributeError` when the root is a mapping but its `jobs` value is
present and not a mapping (only an absent `jobs` key is defaulted to the
empty mapping), and `TypeError` when a mapping-valued job carries a
`steps` value that is not a string, sequence or mapping. -/
theorem claim_C1_failure_classification (parsed : Except String Yaml) :
    exceptFailure (analyze_workflow parsed) = expected_failure parsed := by
  cases parsed with
  | error e => rfl
  | ok workflow =>
    cases workflow with
    | map wkvs =>
      show exceptFailure (analyze_jobs_value wkvs (pyGetD wkvs "jobs" (.map [])))
        = expected_failure_jobs (pyGetD wkvs "jobs" (.map []))
      cases hj : pyGetD wkvs "jobs" (.map []) with
      | map jkvs =>
        show exceptFailure (finish_analysis wkvs (processJobs jkvs [] [] 0))
          = if jobs_steps_all_sized jkvs then none else some .typeError
        rw [processJobs_eq]
        by_cases hs : jobs_steps_all_sized jkvs = true
        · rw [if_pos hs, if_pos hs]
          rfl
        · rw [if_neg hs, if_neg hs]
          rfl
      | null => rfl
      | bool b => rfl
      | int n => rfl
      | str s => rfl
      | seq xs => rfl
    | null => rfl
    | bool b => rfl
    | int n => rfl
    | str s => rfl
    | seq xs => rfl

/-- C1 counterexample: a document whose root is a mapping and whose
`jobs` value is a (non-mapping) sequence is not treated as an empty
`jobs` mapping; `analyze_workflow` fails with the uncaught
`AttributeError` from `jobs.items()`, which is neither of the two
documented errors. -/
theorem claim_C1_counterexample :
    analyze_workflow (.ok (.map [("jobs", .seq [])])) = .error .attributeError
      ∧ AnalyzeError.attributeError ≠ .malformedDocument
      ∧ AnalyzeError.attributeError ≠ .invalidShape :=
  ⟨rfl, by decide, by decide⟩

/-- C2 counterexample: a job whose `steps` value is the string `"ab"`
contributes `len("ab") = 2` to `total_steps`, while the claim (length
when a sequence, 0 otherwise) predicts 0. -/
theorem claim_C2_counterexample :
    okTotalSteps (analyze_workflow (.ok (.map
        [("jobs", .map [("j", .map [("steps", .str "ab")])])]))) = some 2
      ∧ total_steps_seq_only [("j", .map [("steps", .str "ab")])] = 0 :=
  ⟨rfl, rfl⟩

/-- C2 (amended): for every document whose root decodes to a mapping and
whose `jobs` value is a mapping, a successful analysis returns
`total_steps` equal to the sum, over job entries whose value is a
mapping, of the Python length of the job's `steps` value (sequence
length, string character count, or mapping size; absent `steps`
contributes 0). -/
theorem claim_C2_total_steps (wkvs jkvs : List (String × Yaml)) (r : AnalysisResult)
    (hjobs : pyGetD wkvs "jobs" (.map []) = .map jkvs)
    (hok : analyze_workflow (.ok (.map wkvs)) = .ok r) :
    r.total_steps = total_steps_py jkvs := by
  rw [analyze_workflow_jobs_map hjobs] at hok
  by_cases hs : jobs_steps_all_sized jkvs = true
  · rw [if_pos hs] at hok
    simp only [Except.ok.injEq] at hok
    rw [← hok]
  · rw [if_neg hs] at hok
    exact Except.noConfusion hok

/-- Witness for C2: instantiated at a concrete two-step document. -/
theorem claim_C2_total_steps_witness :
    (⟨Yaml.null, ["j"], 2, []⟩ : AnalysisResult).total_steps
      = total_steps_py [("j", .map [("steps", .seq [.null, .null])])] :=
  claim_C2_total_steps [("jobs", .map [("j", .map [("steps", .seq [.null, .null])])])]
    [("j", .map [("steps", .seq [.null, .null])])] ⟨Yaml.null, ["j"], 2, []⟩ rfl rfl

/-- C8: for every document whose root decodes to a mapping and whose
`jobs` value is a mapping, the dependency list of a successful analysis
is exactly the document-order concatenation `deps_spec`: per job (in
document order of the jobs mapping, non-mapping jobs contributing
nothing) the runner records, then the container record (zero or one),
then one record per dependency-bearing step in step order. -/
theorem claim_C8_dependency_order (wkvs jkvs : List (String × Yaml)) (r : AnalysisResult)
    (hjobs : pyGetD wkvs "jobs" (.map []) = .map jkvs)
    (hok : analyze_workflow (.ok (.map wkvs)) = .ok r) :
    r.dependencies = deps_spec jkvs := by
  rw [analyze_workflow_jobs_map hjobs] at hok
  by_cases hs : jobs_steps_all_sized jkvs = true
  · rw [if_pos hs] at hok
    simp only [Except.ok.injEq] at hok
    rw [← hok]
  · rw [if_neg hs] at hok
    exact Except.noConfusion hok

/-- Witness for C8: a job with a runner label, a container and two steps
(one dependency-bearing). -/
theorem claim_C8_dependency_order_witness :
    (⟨Yaml.null, ["b"], 2,
      [⟨.runner, "u", none, .unpinned, "u"⟩,
       ⟨.container, "node", some "18", .tag, "node:18"⟩,
       ⟨.action, "a/b", some "v1", .tag, "a/b@v1"⟩]⟩ : AnalysisResult).dependencies
      = deps_spec [("b", .map
          [("runs-on", .str "u"),
           ("container", .str "node:18"),
           ("steps", .seq [.map [("uses", .str "a/b@v1")], .map [("run", .str "x")]])])] :=
  claim_C8_dependency_order
    [("jobs", .map [("b", .map
      [("runs-on", .str "u"),
       ("container", .str "node:18"),
       ("steps", .seq [.map [("uses", .str "a/b@v1")], .map [("run", .str "x")]])])])]
    [("b", .map
      [("runs-on", .str "u"),
       ("container", .str "node:18"),
       ("steps", .seq [.map [("uses", .str "a/b@v1")], .map [("run", .str "x")]])])]
    ⟨Yaml.null, ["b"], 2,
      [⟨.runner, "u", none, .unpinned, "u"⟩,
       ⟨.container, "node", some "18", .tag, "node:18"⟩,
       ⟨.action, "a/b", some "v1", .tag, "a/b@v1"⟩]⟩
    rfl rfl

/-- C9: `analyze_workflow` is stateless and deterministic.  In the
state-threaded embedding `analyze_workflow_st`, which passes an ambient
state of arbitrary type through every statement of the call, the ambient
state comes back unchanged, the returned value does not depend on the
ambient state (even across different state types, i.e. different
analyzer instances or processes), and the returned value is exactly the
pure `analyze_workflow` — hence two runs on the same input yield
structurally identical results. -/
theorem claim_C9_stateless (σ τ : Type) (s : σ) (t : τ) (parsed : Except String Yaml) :
    (analyze_workflow_st σ s parsed).2 = s
      ∧ (analyze_workflow_st σ s parsed).1 = (analyze_workflow_st τ t parsed).1
      ∧ (analyze_workflow_st σ s parsed).1 = analyze_workflow parsed := by
  rw [analyze_workflow_st_eq, analyze_workflow_st_eq]
  exact ⟨rfl, rfl, rfl⟩

theorem filterMap_str_map_runner : ∀ (xs : List Yaml),
    (xs.filterMap (fun y => match y with | .str s => some s | _ => none)).map
      (fun r => ({ type := .runner, name := r, version := none,
                   pinning_strategy := .unpinned, raw_reference := r } : WorkflowDependency))
      = runner_records_of_list xs
  | [] => rfl
  | y :: ys => by
    have ih := filterMap_str_map_runner ys
    cases y with
    | str s => simp [List.filterMap_cons, runner_records_of_list, runner_record, ih]
    | null => simp [List.filterMap_cons, runner_records_of_list, ih]
    | bool b => simp [List.filterMap_cons, runner_records_of_list, ih]
    | int n => simp [List.filterMap_cons, runner_records_of_list, ih]
    | seq zs => simp [List.filterMap_cons, runner_records_of_list, ih]
    | map kvs => simp [List.filterMap_cons, runner_records_of_list, ih]

/-- C6 (amended): what a job's `runs-on` value contributes to the
dependency list: a non-empty string yields exactly one Runner record
with name and raw reference equal to that string, no version, unpinned;
the empty string (falsy in the `if runs_on:` guard) yields no record; a
sequence yields one such record per string element, in listed order,
with non-string elements dropped; any other shape yields nothing. -/
theorem claim_C6_runner_deps (runs_on : Yaml) :
    guarded_runner_deps runs_on = runner_deps_spec runs_on := by
  cases runs_on with
  | str s =>
    by_cases hs : s = ""
    · subst hs
      rfl
    · show (if (Yaml.str s).truthy then extract_runner_dependencies (.str s) else [])
        = if s = "" then [] else [runner_record s]
      have ht : (Yaml.str s).truthy = true := by
        simp [Yaml.truthy, hs]
      rw [if_neg hs, if_pos ht]
      rfl
  | seq xs =>
    cases xs with
    | nil => rfl
    | cons y ys =>
      show extract_runner_dependencies (.seq (y :: ys)) = runner_records_of_list (y :: ys)
      exact filterMap_str_map_runner (y :: ys)
  | null => rfl
  | bool b => cases b <;> rfl
  | int n =>
    show (if (Yaml.int n).truthy then extract_runner_dependencies (.int n) else []) = []
    split <;> rfl
  | map kvs =>
    show (if (Yaml.map kvs).truthy then extract_runner_dependencies (.map kvs) else []) = []
    split <;> rfl

/-- C6 counterexample: a job whose `runs-on` value is the empty string
is skipped by the falsy `if runs_on:` guard, so no Runner dependency at
all is emitted, while the claim requires exactly one (with empty name). -/
theorem claim_C6_counterexample :
    okDependencies (analyze_workflow (.ok (.map
        [("jobs", .map [("j", .map [("runs-on", .str "")])])]))) = some []
      ∧ okJobs (analyze_workflow (.ok (.map
        [("jobs", .map [("j", .map [("runs-on", .str "")])])]))) = some ["j"] :=
  ⟨rfl, rfl⟩

theorem code_container_dep_eq_spec (s : String) :
    code_container_dep s = container_dep_spec s s := by
  unfold code_container_dep container_dep_spec first_colon_name between_first_and_second_colon
  by_cases hc : s.data.contains ':' = true
  · have hcount : s.data.count ':' ≠ 0 := (contains_iff_count_ne_zero _ _).mp hc
    have hlen : (pySplit ':' s.data).length = s.data.count ':' + 1 := pySplit_length _ _
    have hgt : (pySplit ':' s.data).length > 1 := by omega
    simp only [if_pos hgt, if_pos hc]
    rw [pySplit_head, pySplit_getD_one hcount]
  · have hcount : s.data.count ':' = 0 := by
      by_contra h0
      exact hc ((contains_iff_count_ne_zero _ _).mpr h0)
    have hlen : (pySplit ':' s.data).length = s.data.count ':' + 1 := pySplit_length _ _
    have hngt : ¬ ((pySplit ':' s.data).length > 1) := by omega
    simp only [if_neg hngt, if_neg hc]
    rw [pySplit_head]

/-- The record built by the `docker://` branch of
`_extract_action_dependency` for remainder `s` and raw reference `u`
equals the spec-side container record. -/
theorem docker_record_eq_spec (s u : String) :
    ({ type := .container,
       name := String.mk (if s.data.contains ':'
         then (pySplit ':' s.data).headD [] else s.data),
       version := if s.data.contains ':'
         then some (String.mk ((pySplit ':' s.data).getD 1 [])) else none,
       pinning_strategy := if s.data.contains ':' then Pinning.tag else Pinning.unpinned,
       raw_reference := u } : WorkflowDependency) = container_dep_spec s u := by
  unfold container_dep_spec first_colon_name between_first_and_second_colon
  by_cases hc : s.data.contains ':' = true
  · have hcount : s.data.count ':' ≠ 0 := (contains_iff_count_ne_zero _ _).mp hc
    simp only [if_pos hc]
    rw [pySplit_head, pySplit_getD_one hcount]
  · have hcount : s.data.count ':' = 0 := by
      by_contra h0
      exact hc ((contains_iff_count_ne_zero _ _).mpr h0)
    simp only [if_neg hc]
    rw [takeWhile_eq_self_of_count_zero hcount]

theorem extract_action_str_of_ne (u : String) (hne : u ≠ "") :
    extract_action_dependency (.str u) = extract_action_from_str u := by
  have ht : (Yaml.str u).truthy = true := by
    simp [Yaml.truthy, hne]
  show (if !(Yaml.str u).truthy then none else extract_action_from_str u) = _
  rw [ht]
  rfl

theorem string_append_ne_empty_of_left (a b : String) (h : a.data ≠ []) : a ++ b ≠ "" := by
  intro h0
  have h1 := congrArg String.data h0
  rw [String.data_append] at h1
  simp at h1
  exact h h1.1

/-- C4 counterexample: for the container reference `a:b:c` (two colons)
the emitted version is `b`, the segment between the first and second
colon, not the entire substring `b:c` after the first colon as the claim
states. -/
theorem claim_C4_counterexample :
    extract_container_dependencies (.str "a:b:c")
        = [⟨.container, "a", some "b", .tag, "a:b:c"⟩]
      ∧ ("b" : String) ≠ "b:c" :=
  ⟨rfl, by decide⟩

/-- C4 (amended): for every container reference string (a job-level
`container` string, the string `image` field of a container mapping, or
the remainder of a `docker://` step reference), a reference containing a
colon yields name = substring before the first colon, version = the
segment after the first colon up to (not including) any second colon
(`s.split(':')[1]`), pinning = Tag; a colon-free reference yields name =
the whole string, no version, Unpinned. -/
theorem claim_C4_container_split :
    (∀ s : String, extract_container_dependencies (.str s) = [container_dep_spec s s])
      ∧ (∀ kvs : List (String × Yaml),
          extract_container_dependencies (.map kvs)
            = match pyGet kvs "image" with
              | some (.str s) => if s ≠ "" then [container_dep_spec s s] else []
              | _ => [])
      ∧ (∀ s : String,
          extract_action_dependency (.str ("docker://" ++ s))
            = some (container_dep_spec s ("docker://" ++ s))) := by
  refine ⟨?_, ?_, ?_⟩
  · intro s
    show [code_container_dep s] = [container_dep_spec s s]
    rw [code_container_dep_eq_spec]
  · intro kvs
    show (match pyGet kvs "image" with
          | some (.str s) => if s != "" then [code_container_dep s] else []
          | _ => []) = _
    cases him : pyGet kvs "image" with
    | none => rfl
    | some y =>
      cases y with
      | str s =>
        by_cases hs : s = ""
        · subst hs
          rfl
        · have hs2 : (s != "") = true := by simp [hs]
          show (if s != "" then [code_container_dep s] else [])
            = if s ≠ "" then [container_dep_spec s s] else []
          rw [if_pos hs2, if_pos hs, code_container_dep_eq_spec]
      | null => rfl
      | bool b => rfl
      | int n => rfl
      | seq zs => rfl
      | map m => rfl
  · intro s
    have hne : ("docker://" ++ s : String) ≠ "" :=
      string_append_ne_empty_of_left _ _ (by decide)
    have hdata : ("docker://" ++ s).data = "docker://".data ++ s.data := String.data_append _ _
    have hpre : ("docker://".data.isPrefixOf ("docker://" ++ s).data) = true := by
      rw [hdata, List.isPrefixOf_iff_prefix]
      exact List.prefix_append _ _
    have hdrop : ("docker://" ++ s).data.drop 9 = s.data := by
      rw [hdata]
      rw [show (9 : Nat) = "docker://".data.length from rfl]
      exact List.drop_left _ _
    rw [extract_action_str_of_ne _ hne]
    unfold extract_action_from_str
    rw [if_pos hpre, hdrop]
    rw [docker_record_eq_spec s ("docker://" ++ s)]

theorem determine_eq_sha_iff (s : String) :
    determine_pinning_strategy s = .sha ↔ shaPatternMatch s = true := by
  unfold determine_pinning_strategy
  split_ifs with h1 h2 h3 <;> simp [h1]

/-- C5 counterexample: forty lowercase-hex characters followed by a
single trailing newline (41 characters in all) are classified `Sha`,
because Python's `$` also matches just before a final newline; the claim
requires exactly 40 characters and nothing else. -/
theorem claim_C5_counterexample :
    determine_pinning_strategy (String.mk (List.replicate 40 'a' ++ ['\n'])) = .sha
      ∧ (String.mk (List.replicate 40 'a' ++ ['\n'])).data.length = 41 := by
  constructor
  · decide
  · decide

/-- C5 (amended): the pinning-strategy function classifies a ref string
as `Sha` exactly when the string consists of exactly forty lowercase
hexadecimal characters, or of forty lowercase hexadecimal characters
followed by one final newline character (Python `$` matches just before
a trailing newline); any other string is not classified `Sha`. -/
theorem claim_C5_sha_classification (s : String) :
    determine_pinning_strategy s = .sha ↔
      (sha_claim_strict s
        ∨ ∃ t : List Char, s.data = t ++ ['\n'] ∧ t.length = 40 ∧ ∀ c ∈ t, c ∈ lowerHexChars) := by
  rw [determine_eq_sha_iff]
  unfold shaPatternMatch sha_claim_strict
  simp only [Bool.or_eq_true, Bool.and_eq_true, beq_iff_eq, List.all_eq_true]
  constructor
  · rintro (⟨hlen, hhex⟩ | ⟨⟨hlen, hhex⟩, hlast⟩)
    · exact Or.inl ⟨hlen, fun c hc => (isLowerHexDigit_iff c).mp (hhex c hc)⟩
    · have hsplit : s.data = s.data.take 40 ++ s.data.drop 40 :=
        (List.take_append_drop 40 s.data).symm
      have hdlen : (s.data.drop 40).length = 1 := by
        rw [List.length_drop, hlen]
      obtain ⟨c, hc⟩ := List.length_eq_one.mp hdlen
      rw [hc] at hsplit
      have h2 : (s.data.take 40 ++ [c]).getLastD ' ' = '\n' := by
        rw [← hsplit]
        exact hlast
      rw [List.getLastD_concat] at h2
      refine Or.inr ⟨s.data.take 40, ?_, ?_, ?_⟩
      · rw [← h2]
        exact hsplit
      · simp [List.length_take, hlen]
      · intro c2 hc2
        exact (isLowerHexDigit_iff c2).mp (hhex c2 hc2)
  · rintro (⟨hlen, hhex⟩ | ⟨t, hdecomp, htlen, hthex⟩)
    · exact Or.inl ⟨hlen, fun c hc => (isLowerHexDigit_iff c).mpr (hhex c hc)⟩
    · refine Or.inr ⟨⟨?_, ?_⟩, ?_⟩
      · rw [hdecomp, List.length_append, htlen]
        rfl
      · intro c hc
        rw [hdecomp, show (40 : Nat) = t.length from htlen.symm, List.take_left] at hc
        exact (isLowerHexDigit_iff c).mpr (hthex c hc)
      · rw [hdecomp, List.getLastD_concat]

/-- C7: for every non-empty `uses` string that does not start with
`docker://`, `./` or `../`, the extracted Action dependency follows the
`'@'`-count rule `action_dep_spec`: no `'@'` — name is the full string,
no version, unpinned; exactly one `'@'` — name before it, version after
it, pinning from the pinning-strategy rule applied to that version; more
than one `'@'` — fully unpinned with the raw string as name and no
version. -/
theorem claim_C7_action_split (u : String)
    (hne : u ≠ "")
    (hd : "docker://".data.isPrefixOf u.data = false)
    (hl1 : "./".data.isPrefixOf u.data = false)
    (hl2 : "../".data.isPrefixOf u.data = false) :
    extract_action_dependency (.str u) = some (action_dep_spec u) := by
  rw [extract_action_str_of_ne u hne]
  unfold extract_action_from_str action_dep_spec
  have hd2 : ¬("docker://".data.isPrefixOf u.data = true) := by
    rw [hd]
    simp
  have hor : ¬(("./".data.isPrefixOf u.data || "../".data.isPrefixOf u.data) = true) := by
    rw [hl1, hl2]
    simp
  rw [if_neg hd2, if_neg hor]
  have hlen := pySplit_length '@' u.data
  by_cases h0 : u.data.count '@' = 0
  · have hne2 : ((pySplit '@' u.data).length != 2) = true := by
      rw [hlen, h0]
      rfl
    rw [if_pos hne2, if_pos h0]
    rfl
  · by_cases h1 : u.data.count '@' = 1
    · have hlen2 : ¬(((pySplit '@' u.data).length != 2) = true) := by
        rw [hlen, h1]
        simp
      rw [if_neg hlen2, if_neg h0, if_pos h1]
      have hdecomp := @first_sep_decomp '@' u.data (by omega)
      have hb : ((u.data.dropWhile (fun x => x != '@')).tail).count '@' = 0 := by
        have hcnt := congrArg (List.count '@') hdecomp.1
        rw [List.count_append, List.count_cons] at hcnt
        rw [h1] at hcnt
        have h2 := hdecomp.2
        simp at hcnt
        omega
      have hgd := @pySplit_getD_one '@' u.data (by omega)
      rw [pySplit_head, hgd, takeWhile_eq_self_of_count_zero hb]
    · have hc2 : u.data.count '@' ≥ 2 := by omega
      have hne2 : ((pySplit '@' u.data).length != 2) = true := by
        rw [hlen]
        simp only [bne_iff_ne, ne_eq]
        omega
      rw [if_pos hne2, if_neg h0, if_neg h1]
      rfl

/-- Witness for C7: instantiated at `a/b@v1.2.3` (one `'@'`, a tag-like
version). -/
theorem claim_C7_action_split_witness :
    extract_action_dependency (.str "a/b@v1.2.3") = some (action_dep_spec "a/b@v1.2.3") :=
  claim_C7_action_split "a/b@v1.2.3" (by decide) (by decide) (by decide) (by decide)

theorem mem_deps_spec {d : WorkflowDependency} : ∀ {jkvs : List (String × Yaml)},
    d ∈ deps_spec jkvs → ∃ jc : List (String × Yaml), d ∈ job_deps_spec jc
  | [], h => absurd h (List.not_mem_nil d)
  | (k, v) :: rest, h => by
    cases v with
    | map jc =>
      have hsplit : deps_spec ((k, Yaml.map jc) :: rest)
          = job_deps_spec jc ++ deps_spec rest := rfl
      rw [hsplit] at h
      rcases List.mem_append.mp h with h | h
      · exact ⟨jc, h⟩
      · exact @mem_deps_spec d rest h
    | null => exact @mem_deps_spec d rest h
    | bool b => exact @mem_deps_spec d rest h
    | int n => exact @mem_deps_spec d rest h
    | str s => exact @mem_deps_spec d rest h
    | seq xs => exact @mem_deps_spec d rest h

theorem mem_job_deps_spec {d : WorkflowDependency} {jc : List (String × Yaml)}
    (h : d ∈ job_deps_spec jc) :
    d ∈ guarded_runner_deps (pyGetD jc "runs-on" .null)
      ∨ d ∈ guarded_container_deps (pyGetD jc "container" .null)
      ∨ ∃ step, step_action_dep step = some d := by
  unfold job_deps_spec at h
  rcases List.mem_append.mp h with h | h
  · rcases List.mem_append.mp h with h | h
    · exact Or.inl h
    · exact Or.inr (Or.inl h)
  · rcases List.mem_filterMap.mp h with ⟨step, _, hstep⟩
    exact Or.inr (Or.inr ⟨step, hstep⟩)

theorem mem_guarded_runner {d : WorkflowDependency} {ro : Yaml}
    (h : d ∈ guarded_runner_deps ro) : ∃ s, d = runner_record s := by
  unfold guarded_runner_deps at h
  split at h
  · unfold extract_runner_dependencies at h
    rcases List.mem_map.mp h with ⟨r, _, hr⟩
    exact ⟨r, hr.symm⟩
  · exact absurd h (List.not_mem_nil d)

theorem mem_guarded_container {d : WorkflowDependency} {c : Yaml}
    (h : d ∈ guarded_container_deps c) : ∃ s, d = code_container_dep s := by
  unfold guarded_container_deps at h
  split at h
  · cases c with
    | str s =>
      rcases List.mem_singleton.mp h with rfl
      exact ⟨s, rfl⟩
    | map kvs =>
      show ∃ s, d = code_container_dep s
      have h2 : d ∈ (match pyGet kvs "image" with
          | some (.str s) => if s != "" then [code_container_dep s] else []
          | _ => []) := h
      cases him : pyGet kvs "image" with
      | none =>
        rw [him] at h2
        exact absurd h2 (List.not_mem_nil d)
      | some y =>
        rw [him] at h2
        cases y with
        | str s =>
          have h3 : d ∈ (if (s != "") = true then [code_container_dep s] else []) := h2
          by_cases hs : (s != "") = true
          · rw [if_pos hs] at h3
            rcases List.mem_singleton.mp h3 with rfl
            exact ⟨s, rfl⟩
          · rw [if_neg hs] at h3
            exact absurd h3 (List.not_mem_nil d)
        | null => exact absurd h2 (List.not_mem_nil d)
        | bool b => exact absurd h2 (List.not_mem_nil d)
        | int n => exact absurd h2 (List.not_mem_nil d)
        | seq zs => exact absurd h2 (List.not_mem_nil d)
        | map m => exact absurd h2 (List.not_mem_nil d)
    | null => exact absurd h (List.not_mem_nil d)
    | bool b => exact absurd h (List.not_mem_nil d)
    | int n => exact absurd h (List.not_mem_nil d)
    | seq xs => exact absurd h (List.not_mem_nil d)
  · exact absurd h (List.not_mem_nil d)

theorem step_action_dep_some {d : WorkflowDependency} {step : Yaml}
    (h : step_action_dep step = some d) :
    ∃ uses, extract_action_dependency uses = some d := by
  unfold step_action_dep at h
  cases step with
  | map skvs =>
    have h2 : (if (pyGetD skvs "uses" .null).truthy = true
        then extract_action_dependency (pyGetD skvs "uses" .null) else none) = some d := h
    by_cases ht : (pyGetD skvs "uses" .null).truthy = true
    · rw [if_pos ht] at h2
      exact ⟨pyGetD skvs "uses" .null, h2⟩
    · rw [if_neg ht] at h2
      exact Option.noConfusion h2
  | null => exact Option.noConfusion h
  | bool b => exact Option.noConfusion h
  | int n => exact Option.noConfusion h
  | str s => exact Option.noConfusion h
  | seq xs => exact Option.noConfusion h

/-- Every dependency of a successful analysis is a runner record, a
container record, or an extracted action dependency. -/
theorem analyze_dep_origin {parsed : Except String Yaml} {r : AnalysisResult}
    {d : WorkflowDependency} (hok : analyze_workflow parsed = .ok r)
    (hd : d ∈ r.dependencies) :
    (∃ s, d = runner_record s) ∨ (∃ s, d = code_container_dep s)
      ∨ (∃ uses, extract_action_dependency uses = some d) := by
  cases parsed with
  | error e => exact Except.noConfusion hok
  | ok w =>
    cases w with
    | map wkvs =>
      cases hj : pyGetD wkvs "jobs" (.map []) with
      | map jkvs =>
        rw [analyze_workflow_jobs_map hj] at hok
        by_cases hs : jobs_steps_all_sized jkvs = true
        · rw [if_pos hs] at hok
          simp only [Except.ok.injEq] at hok
          rw [← hok] at hd
          rcases mem_deps_spec hd with ⟨jc, hmem⟩
          rcases mem_job_deps_spec hmem with h | h | ⟨step, hstep⟩
          · exact Or.inl (mem_guarded_runner h)
          · exact Or.inr (Or.inl (mem_guarded_container h))
          · exact Or.inr (Or.inr (step_action_dep_some hstep))
        · rw [if_neg hs] at hok
          exact Except.noConfusion hok
      | null =>
        have hok2 : analyze_jobs_value wkvs (pyGetD wkvs "jobs" (.map [])) = .ok r := hok
        rw [hj] at hok2
        exact Except.noConfusion hok2
      | bool b =>
        have hok2 : analyze_jobs_value wkvs (pyGetD wkvs "jobs" (.map [])) = .ok r := hok
        rw [hj] at hok2
        exact Except.noConfusion hok2
      | int n =>
        have hok2 : analyze_jobs_value wkvs (pyGetD wkvs "jobs" (.map [])) = .ok r := hok
        rw [hj] at hok2
        exact Except.noConfusion hok2
      | str s =>
        have hok2 : analyze_jobs_value wkvs (pyGetD wkvs "jobs" (.map [])) = .ok r := hok
        rw [hj] at hok2
        exact Except.noConfusion hok2
      | seq xs =>
        have hok2 : analyze_jobs_value wkvs (pyGetD wkvs "jobs" (.map [])) = .ok r := hok
        rw [hj] at hok2
        exact Except.noConfusion hok2
    | null => exact Except.noConfusion hok
    | bool b => exact Except.noConfusion hok
    | int n => exact Except.noConfusion hok
    | str s => exact Except.noConfusion hok
    | seq xs => exact Except.noConfusion hok

theorem determine_ne_unpinned (s : String) : determine_pinning_strategy s ≠ .unpinned := by
  unfold determine_pinning_strategy
  split_ifs <;> simp

theorem string_data_eq_nil_iff (u : String) : u.data = [] ↔ u = "" := by
  cases u
  simp [String.ext_iff]

theorem extract_action_from_str_shape {u : String} {d : WorkflowDependency}
    (h : extract_action_from_str u = some d) :
    (d.version = none ↔ d.pinning_strategy = .unpinned) := by
  unfold extract_action_from_str at h
  by_cases hdock : "docker://".data.isPrefixOf u.data = true
  · rw [if_pos hdock] at h
    simp only [Option.some.injEq] at h
    rw [← h]
    by_cases hc : (u.data.drop 9).contains ':' = true
    · simp [if_pos hc]
    · simp [if_neg hc]
  · rw [if_neg hdock] at h
    by_cases hloc : ("./".data.isPrefixOf u.data || "../".data.isPrefixOf u.data) = true
    · rw [if_pos hloc] at h
      exact Option.noConfusion h
    · rw [if_neg hloc] at h
      by_cases hlen : ((pySplit '@' u.data).length != 2) = true
      · rw [if_pos hlen] at h
        simp only [Option.some.injEq] at h
        rw [← h]
        simp
      · rw [if_neg hlen] at h
        simp only [Option.some.injEq] at h
        rw [← h]
        simp [determine_ne_unpinned]

theorem extract_action_version_pinning {uses : Yaml} {d : WorkflowDependency}
    (h : extract_action_dependency uses = some d) :
    (d.version = none ↔ d.pinning_strategy = .unpinned) := by
  cases uses with
  | str u =>
    by_cases hu : u = ""
    · subst hu
      exact Option.noConfusion h
    · rw [extract_action_str_of_ne u hu] at h
      exact extract_action_from_str_shape h
  | null => exact Option.noConfusion h
  | bool b => cases b <;> exact Option.noConfusion h
  | int n =>
    rw [show extract_action_dependency (.int n)
      = (if !(Yaml.int n).truthy then none else none) from rfl] at h
    rw [ite_self] at h
    exact Option.noConfusion h
  | seq xs =>
    rw [show extract_action_dependency (.seq xs)
      = (if !(Yaml.seq xs).truthy then none else none) from rfl] at h
    rw [ite_self] at h
    exact Option.noConfusion h
  | map kvs =>
    rw [show extract_action_dependency (.map kvs)
      = (if !(Yaml.map kvs).truthy then none else none) from rfl] at h
    rw [ite_self] at h
    exact Option.noConfusion h

theorem code_container_dep_version_pinning (s : String) :
    ((code_container_dep s).version = none
      ↔ (code_container_dep s).pinning_strategy = .unpinned) := by
  unfold code_container_dep
  by_cases hgt : (pySplit ':' s.data).length > 1
  · simp [if_pos hgt]
  · simp [if_neg hgt]

/-- C10: for every parse outcome and every dependency record of a
successful analysis, the version is absent exactly when the pinning
strategy is Unpinned: runner records and colon-free container
references and `'@'`-free or multi-`'@'` action references carry no
version and are Unpinned, while every Sha/Tag/Branch record carries a
(possibly empty) version string. -/
theorem claim_C10_version_iff_unpinned (parsed : Except String Yaml) (r : AnalysisResult)
    (hok : analyze_workflow parsed = .ok r) :
    ∀ d ∈ r.dependencies, (d.version = none ↔ d.pinning_strategy = .unpinned) := by
  intro d hd
  rcases analyze_dep_origin hok hd with ⟨s, rfl⟩ | ⟨s, rfl⟩ | ⟨uses, hx⟩
  · simp [runner_record]
  · exact code_container_dep_version_pinning s
  · exact extract_action_version_pinning hx

/-- Witness for C10: instantiated at a one-job document with a pinned
container and its emitted container record. -/
theorem claim_C10_witness :
    ((⟨.container, "node", some "18", .tag, "node:18"⟩ : WorkflowDependency).version = none
      ↔ (⟨.container, "node", some "18", .tag, "node:18"⟩ : WorkflowDependency).pinning_strategy
          = .unpinned) :=
  claim_C10_version_iff_unpinned
    (.ok (.map [("jobs", .map [("j", .map [("container", .str "node:18")])])]))
    ⟨Yaml.null, ["j"], 0, [⟨.container, "node", some "18", .tag, "node:18"⟩]⟩
    rfl
    ⟨.container, "node", some "18", .tag, "node:18"⟩
    (List.Mem.head _)


theorem degenerate_false_parts {r : String} (h : degenerate_reference r = false) :
    r ≠ "" ∧ r.data.head? ≠ some ':' ∧ r.data.head? ≠ some '@'
      ∧ ("docker://".data.isPrefixOf r.data = true →
          (r.data.drop 9).head? ≠ some ':' ∧ r.data.drop 9 ≠ []) := by
  unfold degenerate_reference at h
  rw [Bool.or_eq_false_iff] at h
  obtain ⟨h123, h4⟩ := h
  rw [Bool.or_eq_false_iff] at h123
  obtain ⟨h12, h3⟩ := h123
  rw [Bool.or_eq_false_iff] at h12
  obtain ⟨h1, h2⟩ := h12
  refine ⟨beq_eq_false_iff_ne.mp h1, beq_eq_false_iff_ne.mp h2, beq_eq_false_iff_ne.mp h3, ?_⟩
  intro hpre
  rw [Bool.and_eq_false_iff] at h4
  rcases h4 with h4 | h4
  · rw [hpre] at h4
    exact Bool.noConfusion h4
  · rw [Bool.or_eq_false_iff] at h4
    obtain ⟨ha, hb⟩ := h4
    refine ⟨beq_eq_false_iff_ne.mp ha, ?_⟩
    intro h0
    rw [h0] at hb
    exact Bool.noConfusion hb

theorem code_container_dep_name_nonempty {s : String} (h1 : s ≠ "")
    (h2 : s.data.head? ≠ some ':') : (code_container_dep s).name ≠ "" := by
  show String.mk ((pySplit ':' s.data).headD []) ≠ ""
  rw [pySplit_head, Ne, string_mk_eq_empty_iff]
  cases hd : s.data with
  | nil => exact absurd ((string_data_eq_nil_iff s).mp hd) h1
  | cons c rest =>
    rw [hd] at h2
    have hc : ¬ (c = ':') := by
      simp at h2
      exact h2
    simp [List.takeWhile_cons, hc]

theorem docker_name_nonempty {ci : List Char} (hne : ci ≠ []) (hh : ci.head? ≠ some ':') :
    String.mk (if ci.contains ':' then (pySplit ':' ci).headD [] else ci) ≠ "" := by
  rw [Ne, string_mk_eq_empty_iff]
  by_cases hc : ci.contains ':' = true
  · rw [if_pos hc, pySplit_head]
    cases ci with
    | nil => exact absurd rfl hne
    | cons c rest =>
      have hcc : ¬ (c = ':') := by
        simp at hh
        exact hh
      simp [List.takeWhile_cons, hcc]
  · rw [if_neg hc]
    exact hne

theorem extract_action_from_str_name_nonempty {u : String} {d : WorkflowDependency}
    (hu : u ≠ "") (h : extract_action_from_str u = some d)
    (hdeg : degenerate_reference d.raw_reference = false) : d.name ≠ "" := by
  unfold extract_action_from_str at h
  by_cases hdock : "docker://".data.isPrefixOf u.data = true
  · rw [if_pos hdock] at h
    simp only [Option.some.injEq] at h
    subst h
    obtain ⟨p1, p2, p3, p4⟩ := degenerate_false_parts hdeg
    obtain ⟨q1, q2⟩ := p4 hdock
    exact docker_name_nonempty q2 q1
  · rw [if_neg hdock] at h
    by_cases hloc : ("./".data.isPrefixOf u.data || "../".data.isPrefixOf u.data) = true
    · rw [if_pos hloc] at h
      exact Option.noConfusion h
    · rw [if_neg hloc] at h
      by_cases hlen : ((pySplit '@' u.data).length != 2) = true
      · rw [if_pos hlen] at h
        simp only [Option.some.injEq] at h
        subst h
        exact hu
      · rw [if_neg hlen] at h
        simp only [Option.some.injEq] at h
        subst h
        obtain ⟨p1, p2, p3, p4⟩ := degenerate_false_parts hdeg
        have p3b : u.data.head? ≠ some '@' := p3
        show String.mk ((pySplit '@' u.data).headD []) ≠ ""
        rw [pySplit_head, Ne, string_mk_eq_empty_iff]
        cases hd : u.data with
        | nil => exact absurd ((string_data_eq_nil_iff u).mp hd) hu
        | cons c rest =>
          rw [hd] at p3b
          have hc : ¬ (c = '@') := by
            simp at p3b
            exact p3b
          simp [List.takeWhile_cons, hc]

theorem extract_action_name_nonempty {uses : Yaml} {d : WorkflowDependency}
    (h : extract_action_dependency uses = some d)
    (hdeg : degenerate_reference d.raw_reference = false) : d.name ≠ "" := by
  cases uses with
  | str u =>
    by_cases hu : u = ""
    · subst hu
      exact Option.noConfusion h
    · rw [extract_action_str_of_ne u hu] at h
      exact extract_action_from_str_name_nonempty hu h hdeg
  | null => exact Option.noConfusion h
  | bool b => cases b <;> exact Option.noConfusion h
  | int n =>
    rw [show extract_action_dependency (.int n)
      = (if !(Yaml.int n).truthy then none else none) from rfl] at h
    rw [ite_self] at h
    exact Option.noConfusion h
  | seq xs =>
    rw [show extract_action_dependency (.seq xs)
      = (if !(Yaml.seq xs).truthy then none else none) from rfl] at h
    rw [ite_self] at h
    exact Option.noConfusion h
  | map kvs =>
    rw [show extract_action_dependency (.map kvs)
      = (if !(Yaml.map kvs).truthy then none else none) from rfl] at h
    rw [ite_self] at h
    exact Option.noConfusion h

/-- C3 counterexample: a step `uses: "@v1"` yields an Action dependency
whose name is the empty string (the part before the lone `'@'`). -/
theorem claim_C3_counterexample :
    okDependencies (analyze_workflow (.ok (.map [("jobs", .map [("j", .map [("steps",
        .seq [.map [("uses", .str "@v1")]])])])])))
      = some [⟨.action, "", some "v1", .tag, "@v1"⟩] :=
  rfl

/-- C3 (amended): every dependency record of a successful analysis has a
non-empty name unless its raw reference is degenerate — empty, beginning
with the split separator (`':'` for containers, `'@'` for actions), or a
`docker://` reference whose remainder is empty or begins with `':'`. -/
theorem claim_C3_nonempty_names (parsed : Except String Yaml) (r : AnalysisResult)
    (hok : analyze_workflow parsed = .ok r) :
    ∀ d ∈ r.dependencies, degenerate_reference d.raw_reference = false → d.name ≠ "" := by
  intro d hd hdeg
  rcases analyze_dep_origin hok hd with ⟨s, rfl⟩ | ⟨s, rfl⟩ | ⟨uses, hx⟩
  · show s ≠ ""
    exact (degenerate_false_parts hdeg).1
  · exact code_container_dep_name_nonempty (degenerate_false_parts hdeg).1
      (degenerate_false_parts hdeg).2.1
  · exact extract_action_name_nonempty hx hdeg

/-- Witness for C3: instantiated at a one-job document with a runner
label and its emitted runner record. -/
theorem claim_C3_witness :
    (⟨.runner, "ubuntu-latest", none, .unpinned, "ubuntu-latest"⟩
      : WorkflowDependency).name ≠ "" :=
  claim_C3_nonempty_names
    (.ok (.map [("jobs", .map [("j", .map [("runs-on", .str "ubuntu-latest")])])]))
    ⟨Yaml.null, ["j"], 0, [⟨.runner, "ubuntu-latest", none, .unpinned, "ubuntu-latest"⟩]⟩
    rfl
    ⟨.runner, "ubuntu-latest", none, .unpinned, "ubuntu-latest"⟩
    (List.Mem.head _)
    (by decide)

end WorkflowAnalyzer
